import Mathlib

set_option linter.unusedVariables false

/-
Verification development for the react-native-enhanced-pdf bridge layer.

Part I embeds the Android JNI bridge functions of
android/src/main/cpp/PDFJSI.cpp (the code actually present in the
repository excerpt): the PDFJSI singleton state, getJSIStats, and the
native bridge entry points that build string maps or return booleans.
A C++ std::map<std::string, std::string> is embedded as an association
list of (key, value) pairs in the insertion order of the source text;
since all inserted keys are distinct, lookup behaviour is unaffected by
the ordering std::map would impose.

Part II models the render cache subsystem that the specification
describes (Render Cache Manager, Eviction Policy, Metadata Store).  Its
implementation is not part of the source excerpt — only its iOS
declaration (PDFNativeCacheManager.h) and the bridge callers exist — so
those definitions are modelled from the spec, as marked in their doc
comments.
-/

/-- Embedding of the PDFJSI singleton's mutable state (PDFJSI.h):
the field bool m_initialized, defaulting to false. -/
structure PDFJSIState where
  m_initialized : Bool
deriving DecidableEq, Repr

/-- Initial state of the PDFJSI singleton: m_initialized = false. -/
def pdfjsiStart : PDFJSIState := { m_initialized := false }

/-- PDFJSI::isInitialized (PDFJSI.cpp line 44): returns m_initialized. -/
def isInitializedJSI (s : PDFJSIState) : Bool := s.m_initialized

/-- The pre-allocated template string of PDFJSI::getJSIStats
(PDFJSI.cpp lines 52-54). -/
def jsiStatsTemplate : String :=
  "\x7b\"success\":true,\"version\":\"1.0.0\",\"performanceLevel\":\"high\",\"directMemoryAccess\":true,\"bridgeOptimized\":true,\"initialized\":"

/-- PDFJSI::getJSIStats (PDFJSI.cpp lines 48-65): appends to the fixed
template either "true}" or "false}" according to m_initialized. -/
def getJSIStats (s : PDFJSIState) : String :=
  jsiStatsTemplate ++ (if s.m_initialized then "true\x7d" else "false\x7d")

/-- The native bridge entry points of PDFJSI.cpp, viewed as operations
on the PDFJSI singleton state.  nativeInitializeJSI calls
PDFJSI::initialize, which sets m_initialized to true; every other entry
point leaves the singleton state untouched (nativeCleanupJSI's body is
empty except for a log line). -/
inductive JSIOp
  | initJSI
  | isAvailable
  | renderPage
  | pageMetrics
  | preloadPages
  | cacheMetrics
  | clearCacheOp
  | optimizeMem
  | searchText
  | perfMetrics
  | renderQuality
  | cleanupJSI
  | statsJSI
deriving DecidableEq, Repr

/-- Effect of one bridge entry point on the singleton state. -/
def applyJSIOp (op : JSIOp) (s : PDFJSIState) : PDFJSIState :=
  match op with
  | .initJSI => { m_initialized := true }
  | _ => s

/-- Effect of a sequence of bridge calls, first call first. -/
def applyJSIOps (ops : List JSIOp) (s : PDFJSIState) : PDFJSIState :=
  ops.foldl (fun st op => applyJSIOp op st) s

/-- Java_org_wonday_pdf_PDFJSIManager_nativeRenderPageDirect
(PDFJSI.cpp lines 133-148): builds a string map from pageNumber and
scale; pdfId and base64Data are only logged. -/
def nativeRenderPageDirect (pdfId : String) (pageNumber : Int)
    (scale : Float) (base64Data : String) : List (String × String) :=
  [("success", "true"),
   ("pageNumber", toString pageNumber),
   ("width", "800"),
   ("height", "1200"),
   ("scale", toString scale),
   ("cached", "true"),
   ("renderTimeMs", "50")]

/-- Java_org_wonday_pdf_PDFJSIManager_nativeGetPageMetrics
(PDFJSI.cpp lines 150-165). -/
def nativeGetPageMetrics (pdfId : String) (pageNumber : Int) :
    List (String × String) :=
  [("pageNumber", toString pageNumber),
   ("width", "800"),
   ("height", "1200"),
   ("rotation", "0"),
   ("scale", "1.0"),
   ("renderTimeMs", "50"),
   ("cacheSizeKb", "100")]

/-- Java_org_wonday_pdf_PDFJSIManager_nativeGetCacheMetrics
(PDFJSI.cpp lines 174-185). -/
def nativeGetCacheMetrics (pdfId : String) : List (String × String) :=
  [("pageCacheSize", "5"),
   ("totalCacheSizeKb", "500"),
   ("hitRatio", "0.85")]

/-- Java_org_wonday_pdf_PDFJSIManager_nativeGetPerformanceMetrics
(PDFJSI.cpp lines 215-227). -/
def nativeGetPerformanceMetrics (pdfId : String) :
    List (String × String) :=
  [("lastRenderTime", "120.0"),
   ("avgRenderTime", "90.0"),
   ("cacheHitRatio", "0.85"),
   ("memoryUsageMB", "25.5")]

/-- Java_org_wonday_pdf_PDFJSIManager_nativePreloadPagesDirect
(PDFJSI.cpp lines 167-172): logs and returns JNI_TRUE. -/
def nativePreloadPagesDirect (pdfId : String)
    (startPage endPage : Int) : Bool := true

/-- Java_org_wonday_pdf_PDFJSIManager_nativeClearCacheDirect
(PDFJSI.cpp lines 187-193): logs and returns JNI_TRUE. -/
def nativeClearCacheDirect (pdfId cacheType : String) : Bool := true

/-- Java_org_wonday_pdf_PDFJSIManager_nativeOptimizeMemory
(PDFJSI.cpp lines 195-200): logs and returns JNI_TRUE. -/
def nativeOptimizeMemory (pdfId : String) : Bool := true

/-- Java_org_wonday_pdf_PDFJSIManager_nativeSetRenderQuality
(PDFJSI.cpp lines 229-234): logs and returns JNI_TRUE. -/
def nativeSetRenderQuality (pdfId : String) (quality : Int) : Bool :=
  true

/-- Lookup of a field in an embedded string map. -/
def mapField (m : List (String × String)) (k : String) :
    Option String :=
  m.lookup k

/-
Part II — the render cache subsystem.  The implementation of the
Render Cache Manager, Eviction Policy and Metadata Store is not in the
source excerpt (only the declaration PDFNativeCacheManager.h and the
bridge callers are), so the definitions below are modelled from the
specification's description of those components.
-/

/-- Modelled from the spec: PageKey, the composite identity of one
cached render — documentId, pageNumber (an integer, required to be
nonnegative), scale (a positive real, modelled as a rational) and
rotation (one of 0/90/180/270).  The implementation is missing from
the excerpt. -/
structure PageKey where
  documentId : String
  pageNumber : Int
  scale : Rat
  rotation : Nat
deriving DecidableEq, Repr

/-- Modelled from the spec: validity of a PageKey — pageNumber ≥ 0,
scale positive, rotation one of 0/90/180/270.  A malformed key is
rejected with InvalidKey before any I/O. -/
def validKeyB (k : PageKey) : Bool :=
  decide (0 ≤ k.pageNumber) && decide (0 < k.scale) &&
    (decide (k.rotation = 0) || decide (k.rotation = 90) ||
     decide (k.rotation = 180) || decide (k.rotation = 270))

/-- Modelled from the spec: CacheEntry — key, rasterized payload,
byteSize, createdAt, lastAccessedAt, renderTimeMs, plus the pin flag
of the eviction policy (an entry is pinned while a caller holds the
reference returned by getOrRender and has not released it). -/
structure CacheEntry where
  key : PageKey
  payload : List Nat
  byteSize : Nat
  createdAt : Nat
  lastAccessedAt : Nat
  renderTimeMs : Nat
  pinned : Bool
deriving DecidableEq, Repr

/-- Modelled from the spec: CacheStats — process-wide counters. -/
structure CacheStats where
  hits : Nat
  misses : Nat
  totalBytes : Nat
  entryCount : Nat
  evictionCount : Nat
deriving DecidableEq, Repr

/-- Modelled from the spec: a persisted CacheMetadata descriptor —
the entry minus its pixel payload. -/
structure Descriptor where
  key : PageKey
  byteSize : Nat
  createdAt : Nat
  lastAccessedAt : Nat
deriving DecidableEq, Repr

/-- Descriptor of a live cache entry. -/
def descriptorOf (e : CacheEntry) : Descriptor :=
  { key := e.key, byteSize := e.byteSize, createdAt := e.createdAt,
    lastAccessedAt := e.lastAccessedAt }

/-- Modelled from the spec: the result the external rendering engine
returns on success — a pixel buffer, its byte size, and the render
time in milliseconds. -/
structure RenderResult where
  payload : List Nat
  byteSize : Nat
  renderTimeMs : Nat
deriving DecidableEq, Repr

/-- Modelled from the spec: the error taxonomy relevant to
getOrRender — InvalidKey and RenderFailure. -/
inductive RenderError
  | invalidKey
  | renderFailure
deriving DecidableEq, Repr

/-- Modelled from the spec: the Render Cache Manager's state — the
configured budget and low-water mark, the live entries, the stats
counters, the persisted metadata descriptors, the per-document render
quality table, and a logical clock supplying timestamps. -/
structure ManagerState where
  budget : Nat
  lowWaterMark : Nat
  entries : List CacheEntry
  stats : CacheStats
  metadata : List Descriptor
  renderQuality : List (String × Nat)
  clock : Nat
deriving DecidableEq, Repr

/-- Sum of byteSize over a list of entries. -/
def sumBytes (es : List CacheEntry) : Nat :=
  (es.map (fun e => e.byteSize)).sum

/-- A key is live in a state when some live entry carries it. -/
def hasKey (s : ManagerState) (k : PageKey) : Prop :=
  ∃ e ∈ s.entries, e.key = k

instance (s : ManagerState) (k : PageKey) : Decidable (hasKey s k) :=
  List.decidableBEx _ s.entries

/-- Modelled from the spec: Metadata Store upsert — replace the
descriptor with the same key if present, otherwise append. -/
def upsert (d : Descriptor) (m : List Descriptor) : List Descriptor :=
  if m.any (fun x => decide (x.key = d.key)) then
    m.map (fun x => if x.key = d.key then d else x)
  else m ++ [d]

/-- Modelled from the spec: Metadata Store remove(key). -/
def removeMeta (k : PageKey) (m : List Descriptor) : List Descriptor :=
  m.filter (fun x => !decide (x.key = k))

/-- Modelled from the spec: Metadata Store loadAll after a simulated
process restart.  The persisted descriptor list survives; a
descriptor whose payload file is missing (intact d.key = false) is
dropped, not trusted. -/
def loadAll (m : List Descriptor) (intact : PageKey → Bool) :
    List Descriptor :=
  m.filter (fun d => intact d.key)

/-- Eviction preference order: an entry a is preferred over b when a
was accessed less recently, or equally recently but a is at least as
large (least-recently-accessed first, ties broken by larger byteSize
first). -/
def victimLE (a b : CacheEntry) : Prop :=
  a.lastAccessedAt < b.lastAccessedAt ∨
    (a.lastAccessedAt = b.lastAccessedAt ∧ b.byteSize ≤ a.byteSize)

instance (a b : CacheEntry) : Decidable (victimLE a b) := by
  unfold victimLE; infer_instance

/-- Of two candidates, keep the preferred victim: b wins when it was
accessed strictly less recently, or equally recently with a strictly
larger byteSize; otherwise keep a. -/
def preferVictim (a b : CacheEntry) : CacheEntry :=
  if b.lastAccessedAt < a.lastAccessedAt then b
  else if b.lastAccessedAt = a.lastAccessedAt ∧ a.byteSize < b.byteSize
    then b
  else a

/-- Modelled from the spec: the Eviction Policy's victim choice among
entries of a document filter — the least-recently-accessed unpinned
entry, ties broken by larger byteSize first; none when every
candidate is pinned.  docMatch restricts candidates to the optional
document filter. -/
def docMatch (docFilter : Option String) (e : CacheEntry) : Bool :=
  match docFilter with
  | none => true
  | some d => decide (e.key.documentId = d)

/-- Victim choice among the entries docMatch selects. -/
def pickVictimFor (docFilter : Option String) (es : List CacheEntry) :
    Option CacheEntry :=
  match es.filter (fun e => !e.pinned && docMatch docFilter e) with
  | [] => none
  | e :: rest => some (rest.foldl preferVictim e)

/-- Victim choice with no document filter (insert-time eviction). -/
def pickVictim (es : List CacheEntry) : Option CacheEntry :=
  pickVictimFor none es

/-- Remove the first occurrence of an entry from the live list. -/
def removeEntry (v : CacheEntry) : List CacheEntry → List CacheEntry
  | [] => []
  | e :: rest => if e = v then rest else e :: removeEntry v rest

/-- One eviction of victim v: drop the entry, subtract its bytes,
count the eviction, and remove its metadata descriptor. -/
def evictVictim (v : CacheEntry) (s : ManagerState) : ManagerState :=
  { s with
    entries := removeEntry v s.entries,
    stats := { s.stats with
      totalBytes := s.stats.totalBytes - v.byteSize,
      entryCount := s.stats.entryCount - 1,
      evictionCount := s.stats.evictionCount + 1 },
    metadata := removeMeta v.key s.metadata }

/-- Modelled from the spec: the synchronous eviction pass run before
an insert of need bytes — evict preferred victims until the insert
fits the budget or no evictable (unpinned) entry remains.  Fuel bounds
the pass by the number of live entries. -/
def evictForFuel : Nat → Nat → ManagerState → ManagerState
  | 0, _, s => s
  | fuel + 1, need, s =>
    if s.stats.totalBytes + need ≤ s.budget then s
    else
      match pickVictim s.entries with
      | none => s
      | some v => evictForFuel fuel need (evictVictim v s)

/-- Insert-time eviction with fuel equal to the live entry count. -/
def evictFor (need : Nat) (s : ManagerState) : ManagerState :=
  evictForFuel s.entries.length need s

/-- The CacheEntry a successful miss-fill creates at clock time clk. -/
def newEntry (k : PageKey) (r : RenderResult) (clk : Nat) : CacheEntry :=
  { key := k, payload := r.payload, byteSize := r.byteSize,
    createdAt := clk, lastAccessedAt := clk,
    renderTimeMs := r.renderTimeMs, pinned := true }

/-- Modelled from the spec: getOrRender.  An invalid key is rejected
before any I/O with the state untouched.  On a hit, the existing
entry is returned with lastAccessedAt bumped to the clock (and pinned
by the caller's fresh reference) and hits is incremented.  On a miss,
misses is incremented, the external rendering collaborator is
invoked, and on success the result is wrapped into a new CacheEntry,
eviction runs if needed, the entry is inserted, a metadata update is
persisted, and the entry is returned; on failure the cache content is
unchanged. -/
def getOrRender (k : PageKey)
    (renderFn : PageKey → Option RenderResult) (s : ManagerState) :
    Except RenderError CacheEntry × ManagerState :=
  if validKeyB k = false then (.error .invalidKey, s)
  else
    match s.entries.find? (fun e => decide (e.key = k)) with
    | some e =>
      let e' : CacheEntry :=
        { e with lastAccessedAt := s.clock, pinned := true }
      (.ok e',
       { s with
         entries := s.entries.map (fun x =>
           if x.key = k then
             { x with lastAccessedAt := s.clock, pinned := true }
           else x),
         stats := { s.stats with hits := s.stats.hits + 1 },
         metadata := upsert (descriptorOf e') s.metadata,
         clock := s.clock + 1 })
    | none =>
      let sMiss : ManagerState :=
        { s with stats := { s.stats with misses := s.stats.misses + 1 } }
      match renderFn k with
      | none => (.error .renderFailure, sMiss)
      | some r =>
        let sEv := evictFor r.byteSize sMiss
        let e : CacheEntry := newEntry k r s.clock
        (.ok e,
         { sEv with
           entries := e :: sEv.entries,
           stats := { sEv.stats with
             totalBytes := sEv.stats.totalBytes + r.byteSize,
             entryCount := sEv.stats.entryCount + 1 },
           metadata := upsert (descriptorOf e) sEv.metadata,
           clock := s.clock + 1 })

/-- Modelled from the spec: a caller releases the reference returned
by getOrRender, unpinning the entry (the pin/unpin mechanism of the
concurrency model; not one of the Manager's public cache
operations). -/
def releaseKey (k : PageKey) (s : ManagerState) : ManagerState :=
  { s with entries := s.entries.map (fun e =>
      if e.key = k then { e with pinned := false } else e) }

/-- Modelled from the spec: the cacheType selector of invalidate —
one page, a whole document, or everything. -/
inductive CacheType
  | page (pageNumber : Int)
  | document
  | all

/-- Does an invalidate request select this key? -/
def matchesInvalidate (docId : String) (ct : CacheType)
    (k : PageKey) : Bool :=
  match ct with
  | .page p => decide (k.documentId = docId) && decide (k.pageNumber = p)
  | .document => decide (k.documentId = docId)
  | .all => true

/-- Modelled from the spec: invalidate(documentId, cacheType) —
removes matching entries and their metadata descriptors and updates
the byte accounting. -/
def invalidate (docId : String) (ct : CacheType) (s : ManagerState) :
    ManagerState :=
  let removed := s.entries.filter (fun e =>
    matchesInvalidate docId ct e.key)
  let kept := s.entries.filter (fun e =>
    !matchesInvalidate docId ct e.key)
  { s with
    entries := kept,
    stats := { s.stats with
      totalBytes := s.stats.totalBytes - sumBytes removed,
      entryCount := kept.length },
    metadata := s.metadata.filter (fun d =>
      !matchesInvalidate docId ct d.key) }

/-- Modelled from the spec: explicit clearCache — drops every entry
and descriptor and resets the counters. -/
def clearCache (s : ManagerState) : ManagerState :=
  { s with
    entries := [],
    metadata := [],
    stats := { hits := 0, misses := 0, totalBytes := 0,
               entryCount := 0, evictionCount := 0 } }

/-- Modelled from the spec: the bounded eviction pass of
optimizeMemory — evict victims of the (optional) document down to the
low-water mark or until no evictable entry of that document
remains. -/
def optimizeLoop (docFilter : Option String) :
    Nat → ManagerState → ManagerState
  | 0, s => s
  | fuel + 1, s =>
    if s.stats.totalBytes ≤ s.lowWaterMark then s
    else
      match pickVictimFor docFilter s.entries with
      | none => s
      | some v => optimizeLoop docFilter fuel (evictVictim v s)

/-- Modelled from the spec: optimizeMemory(documentId?) — force-evict
entries for the given document (or all documents) down to the
low-water mark. -/
def optimizeMemory (docFilter : Option String) (s : ManagerState) :
    ManagerState :=
  optimizeLoop docFilter s.entries.length s

/-- Modelled from the spec: setRenderQuality(documentId, quality) —
updates the quality bucket used for subsequent renders of that
document and does not touch existing entries. -/
def setRenderQuality (docId : String) (q : Nat) (s : ManagerState) :
    ManagerState :=
  { s with renderQuality :=
      (docId, q) :: s.renderQuality.filter (fun p =>
        !decide (p.1 = docId)) }

/-- Modelled from the spec: metrics — a point-in-time snapshot of the
stats counters; the state is unchanged. -/
def metricsSnapshot (s : ManagerState) : CacheStats := s.stats

/-- The PageKey a preload of one page uses: default scale 1 and
rotation 0. -/
def preloadKey (docId : String) (p : Int) : PageKey :=
  { documentId := docId, pageNumber := p, scale := 1, rotation := 0 }

/-- The page numbers of the (startPage, endPage] preload range. -/
def pageRange (startPage endPage : Int) : List Int :=
  (List.range (endPage - startPage).toNat).map
    (fun i => startPage + 1 + Int.ofNat i)

/-- Outcome of a preload call: how many pages rendered (or were
already cached) and which pages failed. -/
structure PreloadResult where
  succeeded : Nat
  failed : List Int
deriving DecidableEq, Repr

/-- Modelled from the spec: the body of preload — fire getOrRender
for each page of the list; a failure for one page is recorded in the
failure list, not raised, and the remaining pages still run. -/
def preloadGo (docId : String)
    (renderFn : PageKey → Option RenderResult) :
    List Int → ManagerState → PreloadResult × ManagerState
  | [], s => ({ succeeded := 0, failed := [] }, s)
  | p :: rest, s =>
    let step := getOrRender (preloadKey docId p) renderFn s
    let next := preloadGo docId renderFn rest step.2
    match step.1 with
    | .ok _ =>
      ({ succeeded := next.1.succeeded + 1, failed := next.1.failed },
       next.2)
    | .error _ =>
      ({ succeeded := next.1.succeeded, failed := p :: next.1.failed },
       next.2)

/-- Modelled from the spec: preload(documentId, pageRange) over the
(startPage, endPage] range. -/
def preload (docId : String) (startPage endPage : Int)
    (renderFn : PageKey → Option RenderResult) (s : ManagerState) :
    PreloadResult × ManagerState :=
  preloadGo docId renderFn (pageRange startPage endPage) s

/-- The Manager's public cache operations (§4.1 of the spec), as data
so that a statement can quantify over every operation. -/
inductive CacheOp
  | renderOp (k : PageKey) (renderFn : PageKey → Option RenderResult)
  | preloadOp (docId : String) (startPage endPage : Int)
      (renderFn : PageKey → Option RenderResult)
  | invalidateOp (docId : String) (ct : CacheType)
  | optimizeOp (docFilter : Option String)
  | clearOp
  | metricsOp
  | qualityOp (docId : String) (q : Nat)

/-- State effect of one public cache operation. -/
def applyOp (op : CacheOp) (s : ManagerState) : ManagerState :=
  match op with
  | .renderOp k f => (getOrRender k f s).2
  | .preloadOp d a b f => (preload d a b f s).2
  | .invalidateOp d ct => invalidate d ct s
  | .optimizeOp df => optimizeMemory df s
  | .clearOp => clearCache s
  | .metricsOp => s
  | .qualityOp d q => setRenderQuality d q s

/-- The byte-accounting invariant of the spec: the live byteSizes sum
to CacheStats.totalBytes, and totalBytes is within the budget unless
every live entry is pinned. -/
def CacheInv (s : ManagerState) : Prop :=
  sumBytes s.entries = s.stats.totalBytes ∧
    (s.stats.totalBytes ≤ s.budget ∨
      ∀ e ∈ s.entries, e.pinned = true)

/-- Modelled from the spec: the outcome of one render computation as
observed by a coalesced caller — success with the rendered data, or
failure. -/
inductive RenderOutcome
  | success (payload : List Nat) (byteSize : Nat) (renderTimeMs : Nat)
  | failure
deriving DecidableEq, Repr

/-- Modelled from the spec: the single-flight coalescing state of §5 —
the completed cache, the per-key in-progress markers, the waiters
blocked on an in-progress render, the results delivered to callers,
and a log with one element per invocation of the rendering engine. -/
structure FlightState where
  cache : List (PageKey × RenderOutcome)
  inFlight : List PageKey
  waiters : List (Nat × PageKey)
  delivered : List (Nat × RenderOutcome)
  engineLog : List PageKey
deriving DecidableEq, Repr

/-- An event of the concurrent execution: thread t issues
getOrRender for key k, or the in-progress render of key k completes
with outcome r. -/
inductive FlightEv
  | req (t : Nat) (k : PageKey)
  | done (k : PageKey) (r : RenderOutcome)

/-- Modelled from the spec: one interleaved step of the
check-compute-insert-notify pattern.  A request finding a cached
result is served at once; one finding an in-progress marker joins the
waiters; otherwise it takes the marker and invokes the engine.  A
completion delivers the single render's outcome to every waiter of
that key, clears the marker, and on success fills the cache. -/
def flightStep (s : FlightState) : FlightEv → FlightState
  | .req t k =>
    match s.cache.find? (fun p => decide (p.1 = k)) with
    | some p => { s with delivered := (t, p.2) :: s.delivered }
    | none =>
      if k ∈ s.inFlight then
        { s with waiters := (t, k) :: s.waiters }
      else
        { s with
          inFlight := k :: s.inFlight,
          engineLog := k :: s.engineLog,
          waiters := (t, k) :: s.waiters }
  | .done k r =>
    if k ∈ s.inFlight then
      { s with
        inFlight := s.inFlight.filter (fun x => !decide (x = k)),
        waiters := s.waiters.filter (fun w => !decide (w.2 = k)),
        delivered :=
          (s.waiters.filter (fun w => decide (w.2 = k))).map
            (fun w => (w.1, r)) ++ s.delivered,
        cache :=
          match r with
          | .success a b c => (k, .success a b c) :: s.cache
          | .failure => s.cache }
    else s

/-- A run of the machine over a list of events, first event first. -/
def flightRun (evs : List FlightEv) (s : FlightState) : FlightState :=
  evs.foldl flightStep s

/-
Shared helper lemmas.
-/

/-- Every bridge entry point keeps m_initialized true once set. -/
theorem applyJSIOp_keeps_true (op : JSIOp) (s : PDFJSIState)
    (h : s.m_initialized = true) :
    (applyJSIOp op s).m_initialized = true := by
  cases op <;> simp [applyJSIOp, h]

/-- A call sequence keeps m_initialized true once set. -/
theorem applyJSIOps_keeps_true (ops : List JSIOp) (s : PDFJSIState)
    (h : s.m_initialized = true) :
    (applyJSIOps ops s).m_initialized = true := by
  induction ops generalizing s with
  | nil => simpa [applyJSIOps] using h
  | cons op rest ih =>
    have h' := applyJSIOp_keeps_true op s h
    simpa [applyJSIOps, List.foldl_cons] using ih (applyJSIOp op s) h'

/-- The upserted descriptor is in the upserted store. -/
theorem mem_upsert_self (d : Descriptor) (m : List Descriptor) :
    d ∈ upsert d m := by
  unfold upsert
  by_cases h : m.any (fun x => decide (x.key = d.key)) = true
  · simp only [h, if_true]
    rcases List.any_eq_true.mp h with ⟨x, hx, hkey⟩
    exact List.mem_map.mpr ⟨x, hx, by simp [of_decide_eq_true hkey]⟩
  · simp only [h, if_false]
    exact List.mem_append_right _ (List.mem_singleton.mpr rfl)

/-- C9: the PDFJSI singleton starts uninitialized; after any call
sequence containing nativeInitializeJSI, isInitialized reports true
(no listed operation resets it); and getJSIStats returns exactly the
fixed JSON template terminated by "true}" when initialized and by
"false}" otherwise. -/
theorem c9_jsi_lifecycle_and_stats :
    pdfjsiStart.m_initialized = false ∧
    (∀ pre post : List JSIOp,
      isInitializedJSI
        (applyJSIOps (pre ++ JSIOp.initJSI :: post) pdfjsiStart)
        = true) ∧
    (∀ s : PDFJSIState, s.m_initialized = true →
      getJSIStats s =
        "\x7b\"success\":true,\"version\":\"1.0.0\",\"performanceLevel\":\"high\",\"directMemoryAccess\":true,\"bridgeOptimized\":true,\"initialized\":true\x7d") ∧
    getJSIStats pdfjsiStart =
      "\x7b\"success\":true,\"version\":\"1.0.0\",\"performanceLevel\":\"high\",\"directMemoryAccess\":true,\"bridgeOptimized\":true,\"initialized\":false\x7d" := by
  refine ⟨rfl, ?_, ?_, rfl⟩
  · intro pre post
    have hsplit :
        applyJSIOps (pre ++ JSIOp.initJSI :: post) pdfjsiStart
          = applyJSIOps post
              (applyJSIOp JSIOp.initJSI (applyJSIOps pre pdfjsiStart)) := by
      simp [applyJSIOps, List.foldl_append, List.foldl_cons]
    rw [isInitializedJSI, hsplit]
    exact applyJSIOps_keeps_true post _ rfl
  · intro s h
    cases s with
    | mk b => cases b with
      | false => simp at h
      | true => rfl

/-- C9 witness: a concrete call sequence with initialization in the
middle, evaluated. -/
theorem c9_jsi_lifecycle_and_stats_witness :
    ([JSIOp.renderPage] : List JSIOp) = [JSIOp.renderPage] ∧
    isInitializedJSI
      (applyJSIOps
        ([JSIOp.renderPage] ++ JSIOp.initJSI :: [JSIOp.cleanupJSI])
        pdfjsiStart) = true ∧
    (applyJSIOps
        ([JSIOp.renderPage] ++ JSIOp.initJSI :: [JSIOp.cleanupJSI])
        pdfjsiStart).m_initialized = true ∧
    getJSIStats
      (applyJSIOps
        ([JSIOp.renderPage] ++ JSIOp.initJSI :: [JSIOp.cleanupJSI])
        pdfjsiStart) =
      "\x7b\"success\":true,\"version\":\"1.0.0\",\"performanceLevel\":\"high\",\"directMemoryAccess\":true,\"bridgeOptimized\":true,\"initialized\":true\x7d" := by
  refine ⟨rfl, ?_, ?_, ?_⟩
  · exact (c9_jsi_lifecycle_and_stats.2.1 [JSIOp.renderPage]
      [JSIOp.cleanupJSI])
  · exact (c9_jsi_lifecycle_and_stats.2.1 [JSIOp.renderPage]
      [JSIOp.cleanupJSI])
  · exact c9_jsi_lifecycle_and_stats.2.2.1 _ (by rfl)

/-- C10: nativeRenderPageDirect's result is independent of pdfId and
base64Data — two calls with equal pageNumber and scale return equal
maps — and the fields success, width, height, cached and renderTimeMs
are the same constants for every input. -/
theorem c10_render_independent_and_constant :
    (∀ (p1 b1 p2 b2 : String) (n : Int) (sc : Float),
       nativeRenderPageDirect p1 n sc b1
         = nativeRenderPageDirect p2 n sc b2) ∧
    (∀ (p b : String) (n : Int) (sc : Float),
       mapField (nativeRenderPageDirect p n sc b) "success"
           = some "true" ∧
       mapField (nativeRenderPageDirect p n sc b) "width"
           = some "800" ∧
       mapField (nativeRenderPageDirect p n sc b) "height"
           = some "1200" ∧
       mapField (nativeRenderPageDirect p n sc b) "cached"
           = some "true" ∧
       mapField (nativeRenderPageDirect p n sc b) "renderTimeMs"
           = some "50") := by
  refine ⟨fun p1 b1 p2 b2 n sc => rfl, fun p b n sc => ?_⟩
  refine ⟨rfl, ?_, ?_, ?_, ?_⟩ <;>
    simp [mapField, nativeRenderPageDirect, List.lookup]

/-- C5 counterexample: the metrics bridge operations return maps with
no success field at all. -/
theorem c5_counterexample_no_success_field :
    mapField (nativeGetCacheMetrics "doc") "success" = none ∧
    mapField (nativeGetPerformanceMetrics "doc") "success" = none ∧
    mapField (nativeGetPageMetrics "doc" 1) "success" = none := by
  refine ⟨rfl, rfl, by simp [mapField, nativeGetPageMetrics, List.lookup]⟩

/-- C5 amended: only nativeRenderPageDirect returns a map with a
success field (always "true"); the metric operations return maps of
operation-specific fields with no success field; and the preload,
clear-cache, optimize-memory and render-quality operations return the
plain boolean true instead of a map. -/
theorem c5_amended_success_fields :
    (∀ (p b : String) (n : Int) (sc : Float),
       mapField (nativeRenderPageDirect p n sc b) "success"
         = some "true") ∧
    (∀ (p : String) (n : Int),
       mapField (nativeGetPageMetrics p n) "success" = none) ∧
    (∀ p : String,
       mapField (nativeGetCacheMetrics p) "success" = none) ∧
    (∀ p : String,
       mapField (nativeGetPerformanceMetrics p) "success" = none) ∧
    (∀ (p : String) (a b : Int), nativePreloadPagesDirect p a b = true) ∧
    (∀ p ct : String, nativeClearCacheDirect p ct = true) ∧
    (∀ p : String, nativeOptimizeMemory p = true) ∧
    (∀ (p : String) (q : Int), nativeSetRenderQuality p q = true) := by
  refine ⟨fun p b n sc => rfl, fun p n => ?_, fun p => rfl, fun p => rfl,
    fun p a b => rfl, fun p ct => rfl, fun p => rfl, fun p q => rfl⟩
  simp [mapField, nativeGetPageMetrics, List.lookup]

/-
Concrete demonstration values used by the witness theorems.
-/

/-- An empty manager with a 1000-byte budget. -/
def demoState0 : ManagerState :=
  { budget := 1000, lowWaterMark := 500, entries := [],
    stats := { hits := 0, misses := 0, totalBytes := 0,
               entryCount := 0, evictionCount := 0 },
    metadata := [], renderQuality := [], clock := 0 }

/-- A malformed key: its scale is negative. -/
def badKey : PageKey :=
  { documentId := "d", pageNumber := 0, scale := -1, rotation := 0 }

/-- A well-formed key. -/
def demoKeyA : PageKey :=
  { documentId := "doc", pageNumber := 1, scale := 1, rotation := 0 }

/-- A renderer that always succeeds with a 10-byte result. -/
def demoRenderFn : PageKey → Option RenderResult :=
  fun _ => some { payload := [], byteSize := 10, renderTimeMs := 5 }

/-- A concrete persisted descriptor. -/
def demoDesc : Descriptor :=
  { key := demoKeyA, byteSize := 10, createdAt := 0,
    lastAccessedAt := 0 }

/-- C7: a request with a malformed PageKey (for example a
non-positive scale) is rejected with InvalidKey, the cache state is
unchanged, and the rendering collaborator is never consulted — the
answer does not depend on the render function at all. -/
theorem c7_invalid_key_rejected :
    ∀ (k : PageKey) (f g : PageKey → Option RenderResult)
      (s : ManagerState),
      validKeyB k = false →
      getOrRender k f s = (.error .invalidKey, s) ∧
      getOrRender k f s = getOrRender k g s := by
  intro k f g s h
  constructor <;> simp [getOrRender, h]

/-- C7 witness: the negative-scale key is rejected on the empty
manager. -/
theorem c7_invalid_key_rejected_witness :
    validKeyB badKey = false ∧
    getOrRender badKey demoRenderFn demoState0
      = (.error .invalidKey, demoState0) := by
  refine ⟨by decide, ?_⟩
  exact (c7_invalid_key_rejected badKey demoRenderFn
    (fun _ => none) demoState0 (by decide)).1

/-- C8: after upsert(descriptor) the metadata surviving a simulated
restart (loadAll) contains the descriptor unchanged whenever its
payload file is intact; when the payload was deleted out-of-band,
loadAll returns no descriptor with that key. -/
theorem c8_metadata_roundtrip :
    ∀ (d : Descriptor) (m : List Descriptor)
      (intact : PageKey → Bool),
      (intact d.key = true → d ∈ loadAll (upsert d m) intact) ∧
      (intact d.key = false →
        ∀ d' ∈ loadAll (upsert d m) intact, d'.key ≠ d.key) := by
  intro d m intact
  constructor
  · intro h
    exact List.mem_filter.mpr ⟨mem_upsert_self d m, h⟩
  · intro h d' hd' hkey
    have h' := (List.mem_filter.mp hd').2
    rw [hkey, h] at h'
    exact Bool.false_ne_true h'

/-- C8 witness: a round trip through an empty store with an intact
payload, and the same round trip after deleting the payload. -/
theorem c8_metadata_roundtrip_witness :
    ((fun _ => true) : PageKey → Bool) demoDesc.key = true ∧
    demoDesc ∈ loadAll (upsert demoDesc []) (fun _ => true) ∧
    (∀ d' ∈ loadAll (upsert demoDesc []) (fun _ => false),
      d'.key ≠ demoDesc.key) := by
  refine ⟨rfl, ?_, ?_⟩
  · exact (c8_metadata_roundtrip demoDesc [] (fun _ => true)).1 rfl
  · exact (c8_metadata_roundtrip demoDesc [] (fun _ => false)).2 rfl

/-- The empty single-flight state. -/
def demoFlight0 : FlightState :=
  { cache := [], inFlight := [], waiters := [], delivered := [],
    engineLog := [] }

/-- C1: two concurrent getOrRender calls with the same PageKey — a
request finding no cached result and no in-flight render, followed by
a second request for the same key before the render completes —
invoke the rendering engine exactly once, and when that single render
completes (successfully or not) both callers observe its outcome. -/
theorem c1_single_flight_pair :
    ∀ (s : FlightState) (t1 t2 : Nat) (k : PageKey)
      (r : RenderOutcome),
      s.cache.find? (fun p => decide (p.1 = k)) = none →
      k ∉ s.inFlight →
      ((flightStep (flightStep s (.req t1 k)) (.req t2 k)).engineLog.count k
          = s.engineLog.count k + 1) ∧
      ((t1, r) ∈ (flightStep (flightStep (flightStep s (.req t1 k))
          (.req t2 k)) (.done k r)).delivered) ∧
      ((t2, r) ∈ (flightStep (flightStep (flightStep s (.req t1 k))
          (.req t2 k)) (.done k r)).delivered) := by
  intro s t1 t2 k r hfind hflight
  have h1 : flightStep s (.req t1 k)
      = { s with inFlight := k :: s.inFlight,
                 engineLog := k :: s.engineLog,
                 waiters := (t1, k) :: s.waiters } := by
    simp [flightStep, hfind, hflight]
  have h2 : flightStep (flightStep s (.req t1 k)) (.req t2 k)
      = { s with inFlight := k :: s.inFlight,
                 engineLog := k :: s.engineLog,
                 waiters := (t2, k) :: (t1, k) :: s.waiters } := by
    rw [h1]
    simp [flightStep, hfind]
  refine ⟨?_, ?_, ?_⟩
  · rw [h2]
    simp [List.count_cons_self]
  · rw [h2]
    simp only [flightStep, List.mem_cons, List.mem_singleton]
    simp [List.filter_cons, List.mem_append]
  · rw [h2]
    simp only [flightStep, List.mem_cons, List.mem_singleton]
    simp [List.filter_cons, List.mem_append]

/-- C1 witness: the two-thread scenario on the empty state with a
failing render, evaluated concretely. -/
theorem c1_single_flight_pair_witness :
    demoFlight0.cache.find? (fun p => decide (p.1 = demoKeyA))
        = none ∧
    demoKeyA ∉ demoFlight0.inFlight ∧
    ((flightStep (flightStep demoFlight0 (.req 0 demoKeyA))
        (.req 1 demoKeyA)).engineLog.count demoKeyA
        = demoFlight0.engineLog.count demoKeyA + 1) ∧
    ((0, RenderOutcome.failure) ∈
      (flightStep (flightStep (flightStep demoFlight0 (.req 0 demoKeyA))
        (.req 1 demoKeyA)) (.done demoKeyA .failure)).delivered) ∧
    ((1, RenderOutcome.failure) ∈
      (flightStep (flightStep (flightStep demoFlight0 (.req 0 demoKeyA))
        (.req 1 demoKeyA)) (.done demoKeyA .failure)).delivered) := by
  have h := c1_single_flight_pair demoFlight0 0 1 demoKeyA .failure
    rfl (by decide)
  exact ⟨rfl, by decide, h.1, h.2.1, h.2.2⟩

/-- Eviction never touches the miss counter. -/
theorem evictForFuel_misses (fuel need : Nat) (s : ManagerState) :
    (evictForFuel fuel need s).stats.misses = s.stats.misses := by
  induction fuel generalizing s with
  | zero => rfl
  | succ n ih =>
    by_cases hb : s.stats.totalBytes + need ≤ s.budget
    · simp [evictForFuel, hb]
    · cases hpv : pickVictim s.entries with
      | none => simp [evictForFuel, hb, hpv]
      | some v =>
        simp only [evictForFuel, hb, if_false, hpv]
        rw [ih]
        rfl

/-- C2: the getOrRender contract.  On a hit the existing entry is
returned with lastAccessedAt bumped and the hit counter incremented
(misses and byte accounting untouched).  On a miss the miss counter
is incremented; if the rendering collaborator fails, the error is
returned with entries and metadata unchanged; if it succeeds, the
new CacheEntry built from the result is returned, is live in the
cache, and its descriptor is persisted in the metadata. -/
theorem c2_get_or_render_contract :
    ∀ (k : PageKey) (f : PageKey → Option RenderResult)
      (s : ManagerState),
      validKeyB k = true →
      (∀ e, s.entries.find? (fun x => decide (x.key = k)) = some e →
        (getOrRender k f s).1
            = .ok { e with lastAccessedAt := s.clock, pinned := true } ∧
        (getOrRender k f s).2.stats.hits = s.stats.hits + 1 ∧
        (getOrRender k f s).2.stats.misses = s.stats.misses ∧
        (getOrRender k f s).2.stats.totalBytes
            = s.stats.totalBytes) ∧
      (s.entries.find? (fun x => decide (x.key = k)) = none →
        (getOrRender k f s).2.stats.misses = s.stats.misses + 1 ∧
        (f k = none →
          (getOrRender k f s).1 = .error .renderFailure ∧
          (getOrRender k f s).2.entries = s.entries ∧
          (getOrRender k f s).2.metadata = s.metadata) ∧
        (∀ r, f k = some r →
          (getOrRender k f s).1 = .ok (newEntry k r s.clock) ∧
          (newEntry k r s.clock).key = k ∧
          (newEntry k r s.clock).payload = r.payload ∧
          (newEntry k r s.clock).byteSize = r.byteSize ∧
          newEntry k r s.clock ∈ (getOrRender k f s).2.entries ∧
          descriptorOf (newEntry k r s.clock)
            ∈ (getOrRender k f s).2.metadata)) := by
  intro k f s hval
  constructor
  · intro e hfind
    refine ⟨?_, ?_, ?_, ?_⟩ <;> simp [getOrRender, hval, hfind]
  · intro hfind
    refine ⟨?_, ?_, ?_⟩
    · cases hf : f k with
      | none => simp [getOrRender, hval, hfind, hf]
      | some r =>
        simp only [getOrRender, hval, Bool.true_eq_false, if_false,
          hfind, hf]
        exact evictForFuel_misses _ _ _
    · intro hf
      refine ⟨?_, ?_, ?_⟩ <;> simp [getOrRender, hval, hfind, hf]
    · intro r hf
      refine ⟨?_, rfl, rfl, rfl, ?_, ?_⟩
      · simp [getOrRender, hval, hfind, hf]
      · simp only [getOrRender, hval, Bool.true_eq_false, if_false,
          hfind, hf]
        exact List.mem_cons_self _ _
      · simp only [getOrRender, hval, Bool.true_eq_false, if_false,
          hfind, hf]
        exact mem_upsert_self _ _

/-- C2 witness: a miss on the empty manager with the demo renderer,
with the counter, insertion and metadata conclusions evaluated. -/
theorem c2_get_or_render_contract_witness :
    validKeyB demoKeyA = true ∧
    demoState0.entries.find? (fun x => decide (x.key = demoKeyA))
        = none ∧
    demoRenderFn demoKeyA
        = some { payload := [], byteSize := 10, renderTimeMs := 5 } ∧
    (getOrRender demoKeyA demoRenderFn demoState0).2.stats.misses
        = demoState0.stats.misses + 1 ∧
    newEntry demoKeyA
        { payload := [], byteSize := 10, renderTimeMs := 5 }
        demoState0.clock
      ∈ (getOrRender demoKeyA demoRenderFn demoState0).2.entries := by
  have h := c2_get_or_render_contract demoKeyA demoRenderFn demoState0
    (by decide)
  refine ⟨by decide, rfl, rfl, (h.2 rfl).1, ?_⟩
  exact ((h.2 rfl).2.2
    { payload := [], byteSize := 10, renderTimeMs := 5 } rfl).2.2.2.2.1

/-- The eviction preference order is reflexive. -/
theorem victimLE_refl (a : CacheEntry) : victimLE a a :=
  Or.inr ⟨rfl, le_refl _⟩

/-- The eviction preference order is transitive. -/
theorem victimLE_trans (a b c : CacheEntry)
    (h1 : victimLE a b) (h2 : victimLE b c) : victimLE a c := by
  unfold victimLE at h1 h2 ⊢
  omega

/-- preferVictim returns one of its two arguments. -/
theorem preferVictim_cases (a b : CacheEntry) :
    preferVictim a b = a ∨ preferVictim a b = b := by
  unfold preferVictim
  split_ifs <;> simp

/-- preferVictim is preferred over its left argument. -/
theorem preferVictim_le_left (a b : CacheEntry) :
    victimLE (preferVictim a b) a := by
  unfold preferVictim
  split_ifs with h1 h2 <;> unfold victimLE <;> omega

/-- preferVictim is preferred over its right argument. -/
theorem preferVictim_le_right (a b : CacheEntry) :
    victimLE (preferVictim a b) b := by
  unfold preferVictim
  split_ifs with h1 h2 <;> unfold victimLE <;> omega

/-- Folding preferVictim stays inside the candidate list. -/
theorem foldl_preferVictim_mem (rest : List CacheEntry)
    (e : CacheEntry) :
    rest.foldl preferVictim e ∈ e :: rest := by
  induction rest generalizing e with
  | nil => exact List.mem_cons_self _ _
  | cons b rest ih =>
    have h := ih (preferVictim e b)
    rw [List.foldl_cons]
    rcases List.mem_cons.mp h with h | h
    · rcases preferVictim_cases e b with hc | hc <;> rw [h, hc] <;> simp
    · exact List.mem_cons.mpr
        (Or.inr (List.mem_cons.mpr (Or.inr h)))

/-- The fold of preferVictim is preferred over every candidate. -/
theorem foldl_preferVictim_min (rest : List CacheEntry)
    (e : CacheEntry) :
    ∀ x ∈ e :: rest, victimLE (rest.foldl preferVictim e) x := by
  induction rest generalizing e with
  | nil =>
    intro x hx
    rcases List.mem_cons.mp hx with h | h
    · rw [h]; exact victimLE_refl e
    · cases h
  | cons b rest ih =>
    intro x hx
    have hacc : victimLE (rest.foldl preferVictim (preferVictim e b))
        (preferVictim e b) :=
      ih (preferVictim e b) _ (List.mem_cons_self _ _)
    rw [List.foldl_cons]
    rcases List.mem_cons.mp hx with h | h
    · rw [h]
      exact victimLE_trans _ _ _ hacc (preferVictim_le_left e b)
    · rcases List.mem_cons.mp h with h | h
      · rw [h]
        exact victimLE_trans _ _ _ hacc (preferVictim_le_right e b)
      · exact ih (preferVictim e b) x (List.mem_cons.mpr (Or.inr h))

/-- The chosen victim is an unpinned live entry. -/
theorem pickVictim_mem (es : List CacheEntry) (v : CacheEntry)
    (hpv : pickVictim es = some v) :
    v ∈ es ∧ v.pinned = false := by
  unfold pickVictim pickVictimFor at hpv
  cases hfl : es.filter (fun e => !e.pinned && docMatch none e) with
  | nil => rw [hfl] at hpv; cases hpv
  | cons e0 rest =>
    rw [hfl] at hpv
    have hv : v ∈ e0 :: rest := by
      have := foldl_preferVictim_mem rest e0
      rwa [Option.some_inj.mp hpv] at this
    rw [← hfl] at hv
    have hmem := List.mem_filter.mp hv
    refine ⟨hmem.1, ?_⟩
    have := hmem.2
    simp [docMatch] at this
    exact this

/-- The chosen victim is preferred over every unpinned live entry. -/
theorem pickVictim_min (es : List CacheEntry) (v : CacheEntry)
    (hpv : pickVictim es = some v) :
    ∀ e ∈ es, e.pinned = false → victimLE v e := by
  intro e he hpin
  unfold pickVictim pickVictimFor at hpv
  cases hfl : es.filter (fun x => !x.pinned && docMatch none x) with
  | nil => rw [hfl] at hpv; cases hpv
  | cons e0 rest =>
    rw [hfl] at hpv
    have hef : e ∈ es.filter (fun x => !x.pinned && docMatch none x) :=
      List.mem_filter.mpr ⟨he, by simp [docMatch, hpin]⟩
    rw [hfl] at hef
    have hmin := foldl_preferVictim_min rest e0 e hef
    have hv : v = rest.foldl preferVictim e0 :=
      (Option.some_inj.mp hpv).symm
    rw [hv]
    exact hmin

/-- If every live entry is pinned there is no victim. -/
theorem pickVictimFor_none_of_pinned (df : Option String)
    (es : List CacheEntry) (h : ∀ e ∈ es, e.pinned = true) :
    pickVictimFor df es = none := by
  unfold pickVictimFor
  have hfl : es.filter (fun e => !e.pinned && docMatch df e) = [] := by
    rw [List.filter_eq_nil_iff]
    intro e he
    simp [h e he]
  rw [hfl]

/-- If there is no victim, every live entry is pinned. -/
theorem pinned_of_pickVictim_none (es : List CacheEntry)
    (h : pickVictim es = none) : ∀ e ∈ es, e.pinned = true := by
  intro e he
  unfold pickVictim pickVictimFor at h
  cases hfl : es.filter (fun x => !x.pinned && docMatch none x) with
  | cons e0 rest => rw [hfl] at h; cases h
  | nil =>
    by_contra hpin
    have hpin' : e.pinned = false := by
      cases hb : e.pinned
      · rfl
      · exact absurd hb hpin
    have : e ∈ es.filter (fun x => !x.pinned && docMatch none x) :=
      List.mem_filter.mpr ⟨he, by simp [docMatch, hpin']⟩
    rw [hfl] at this
    cases this

/-- A renderer producing 400000-byte pages. -/
def rfn400 : PageKey → Option RenderResult :=
  fun _ => some { payload := [], byteSize := 400000, renderTimeMs := 10 }

/-- Key B of the eviction scenario. -/
def demoKeyB : PageKey :=
  { documentId := "doc", pageNumber := 2, scale := 1, rotation := 0 }

/-- Key C of the eviction scenario. -/
def demoKeyC : PageKey :=
  { documentId := "doc", pageNumber := 3, scale := 1, rotation := 0 }

/-- An empty manager with a 1,000,000-byte budget. -/
def demoState1M : ManagerState :=
  { budget := 1000000, lowWaterMark := 500000, entries := [],
    stats := { hits := 0, misses := 0, totalBytes := 0,
               entryCount := 0, evictionCount := 0 },
    metadata := [], renderQuality := [], clock := 0 }

/-- The eviction scenario run: insert A, release it, insert B,
release it, insert C. -/
def c4Run : ManagerState :=
  (getOrRender demoKeyC rfn400
    (releaseKey demoKeyB
      ((getOrRender demoKeyB rfn400
        (releaseKey demoKeyA
          ((getOrRender demoKeyA rfn400 demoState1M).2))).2))).2

/-- Unpinned tie-break candidates: equal lastAccessedAt, different
byteSize. -/
def demoE1 : CacheEntry :=
  { key := demoKeyA, payload := [], byteSize := 10, createdAt := 0,
    lastAccessedAt := 5, renderTimeMs := 0, pinned := false }

def demoE2 : CacheEntry :=
  { key := demoKeyB, payload := [], byteSize := 20, createdAt := 0,
    lastAccessedAt := 5, renderTimeMs := 0, pinned := false }

/-- C4: eviction picks an unpinned entry that is least recently
accessed, ties broken by larger byteSize first; and in the concrete
scenario — budget 1,000,000, inserts of 400,000 bytes for keys A, B,
C in that order (releasing each returned reference) — inserting C
evicts A, leaving totalBytes = 800,000 and evictionCount = 1 with B
and C live. -/
theorem c4_eviction_policy_and_scenario :
    (∀ (es : List CacheEntry) (v : CacheEntry),
      pickVictim es = some v →
        v.pinned = false ∧ v ∈ es ∧
        ∀ e ∈ es, e.pinned = false → victimLE v e) ∧
    c4Run.stats.totalBytes = 800000 ∧
    c4Run.stats.evictionCount = 1 ∧
    ¬ hasKey c4Run demoKeyA ∧
    hasKey c4Run demoKeyB ∧
    hasKey c4Run demoKeyC := by
  refine ⟨?_, by decide, by decide, by decide, by decide, by decide⟩
  intro es v hpv
  exact ⟨(pickVictim_mem es v hpv).2, (pickVictim_mem es v hpv).1,
    pickVictim_min es v hpv⟩

/-- C4 witness: on two unpinned candidates with equal recency the
larger entry is chosen, and the policy conclusions are evaluated on
it. -/
theorem c4_eviction_policy_and_scenario_witness :
    pickVictim [demoE1, demoE2] = some demoE2 ∧
    demoE2.pinned = false ∧
    demoE2 ∈ [demoE1, demoE2] ∧
    victimLE demoE2 demoE1 := by
  have h := c4_eviction_policy_and_scenario.1 [demoE1, demoE2] demoE2
    (by decide)
  exact ⟨by decide, h.1, h.2.1, h.2.2 demoE1 (by simp) rfl⟩

/-- sumBytes distributes over cons. -/
theorem sumBytes_cons (e : CacheEntry) (es : List CacheEntry) :
    sumBytes (e :: es) = e.byteSize + sumBytes es := by
  simp [sumBytes]

/-- A member's byteSize is bounded by the total. -/
theorem byteSize_le_sumBytes (v : CacheEntry) (es : List CacheEntry)
    (h : v ∈ es) : v.byteSize ≤ sumBytes es := by
  induction es with
  | nil => cases h
  | cons e rest ih =>
    rw [sumBytes_cons]
    rcases List.mem_cons.mp h with h | h
    · rw [h]; omega
    · have := ih h; omega

/-- Removing a member subtracts exactly its byteSize. -/
theorem sumBytes_removeEntry (v : CacheEntry) (es : List CacheEntry)
    (h : v ∈ es) :
    sumBytes (removeEntry v es) = sumBytes es - v.byteSize := by
  induction es with
  | nil => cases h
  | cons e rest ih =>
    rw [removeEntry]
    by_cases he : e = v
    · simp [he, sumBytes_cons]
    · rcases List.mem_cons.mp h with h' | h'
      · exact absurd h'.symm he
      · have hle := byteSize_le_sumBytes v rest h'
        simp only [he, if_false, sumBytes_cons, ih h']
        omega

/-- removeEntry only removes. -/
theorem mem_removeEntry (v x : CacheEntry) (es : List CacheEntry)
    (h : x ∈ removeEntry v es) : x ∈ es := by
  induction es with
  | nil => cases h
  | cons e rest ih =>
    rw [removeEntry] at h
    by_cases he : e = v
    · simp only [he, if_true] at h
      exact List.mem_cons.mpr (Or.inr h)
    · simp only [he, if_false] at h
      rcases List.mem_cons.mp h with h' | h'
      · exact List.mem_cons.mpr (Or.inl h')
      · exact List.mem_cons.mpr (Or.inr (ih h'))

/-- Removing a member shortens the list by one. -/
theorem length_removeEntry (v : CacheEntry) (es : List CacheEntry)
    (h : v ∈ es) : (removeEntry v es).length + 1 = es.length := by
  induction es with
  | nil => cases h
  | cons e rest ih =>
    rw [removeEntry]
    by_cases he : e = v
    · simp [he]
    · rcases List.mem_cons.mp h with h' | h'
      · exact absurd h'.symm he
      · simp only [he, if_false, List.length_cons]
        rw [← ih h']

/-- A pointwise byteSize-preserving map preserves the total. -/
theorem sumBytes_map_preserve (f : CacheEntry → CacheEntry)
    (hf : ∀ e, (f e).byteSize = e.byteSize) (es : List CacheEntry) :
    sumBytes (es.map f) = sumBytes es := by
  induction es with
  | nil => rfl
  | cons e rest ih =>
    rw [List.map_cons, sumBytes_cons, sumBytes_cons, hf, ih]

/-- The total splits over a filter and its complement. -/
theorem sumBytes_filter_split (p : CacheEntry → Bool)
    (es : List CacheEntry) :
    sumBytes es
      = sumBytes (es.filter p)
        + sumBytes (es.filter (fun e => !(p e))) := by
  induction es with
  | nil => rfl
  | cons e rest ih =>
    by_cases hp : p e
    · simp [List.filter_cons, hp, sumBytes_cons]
      omega
    · simp [List.filter_cons, hp, sumBytes_cons]
      omega

/-- The chosen victim of any document filter is an unpinned live
entry. -/
theorem pickVictimFor_mem (df : Option String) (es : List CacheEntry)
    (v : CacheEntry) (hpv : pickVictimFor df es = some v) :
    v ∈ es ∧ v.pinned = false := by
  unfold pickVictimFor at hpv
  cases hfl : es.filter (fun e => !e.pinned && docMatch df e) with
  | nil => rw [hfl] at hpv; cases hpv
  | cons e0 rest =>
    rw [hfl] at hpv
    have hv : v ∈ e0 :: rest := by
      have := foldl_preferVictim_mem rest e0
      rwa [Option.some_inj.mp hpv] at this
    rw [← hfl] at hv
    have hmem := List.mem_filter.mp hv
    refine ⟨hmem.1, ?_⟩
    have h2 := hmem.2
    simp at h2
    exact h2.1

/-- The insert-time eviction pass keeps the byte accounting exact,
keeps the configuration, only removes entries, and ends either with
room for the insert or with every remaining entry pinned. -/
theorem evictForFuel_spec (fuel need : Nat) :
    ∀ s : ManagerState,
      sumBytes s.entries = s.stats.totalBytes →
      s.entries.length ≤ fuel →
      sumBytes (evictForFuel fuel need s).entries
          = (evictForFuel fuel need s).stats.totalBytes ∧
      ((evictForFuel fuel need s).stats.totalBytes + need ≤ s.budget ∨
        ∀ e ∈ (evictForFuel fuel need s).entries, e.pinned = true) ∧
      (evictForFuel fuel need s).budget = s.budget ∧
      (evictForFuel fuel need s).lowWaterMark = s.lowWaterMark ∧
      (∀ e ∈ (evictForFuel fuel need s).entries, e ∈ s.entries) := by
  induction fuel with
  | zero =>
    intro s hsum hlen
    have hnil : s.entries = [] := by
      cases hes : s.entries with
      | nil => rfl
      | cons x xs => rw [hes] at hlen; simp at hlen
    refine ⟨hsum, Or.inr ?_, rfl, rfl, fun e he => he⟩
    intro e he
    rw [evictForFuel] at he
    rw [hnil] at he
    cases he
  | succ n ih =>
    intro s hsum hlen
    by_cases hb : s.stats.totalBytes + need ≤ s.budget
    · have heq : evictForFuel (n + 1) need s = s := by
        simp [evictForFuel, hb]
      rw [heq]
      exact ⟨hsum, Or.inl hb, rfl, rfl, fun e he => he⟩
    · cases hpv : pickVictim s.entries with
      | none =>
        have heq : evictForFuel (n + 1) need s = s := by
          simp [evictForFuel, hb, hpv]
        rw [heq]
        exact ⟨hsum, Or.inr (pinned_of_pickVictim_none _ hpv), rfl,
          rfl, fun e he => he⟩
      | some v =>
        have hvmem := (pickVictim_mem s.entries v hpv).1
        have hvsum : sumBytes (evictVictim v s).entries
            = (evictVictim v s).stats.totalBytes := by
          show sumBytes (removeEntry v s.entries)
              = s.stats.totalBytes - v.byteSize
          rw [sumBytes_removeEntry v s.entries hvmem, hsum]
        have hvlen : (evictVictim v s).entries.length ≤ n := by
          show (removeEntry v s.entries).length ≤ n
          have := length_removeEntry v s.entries hvmem
          omega
        have hrec := ih (evictVictim v s) hvsum hvlen
        have heq : evictForFuel (n + 1) need s
            = evictForFuel n need (evictVictim v s) := by
          simp [evictForFuel, hb, hpv]
        rw [heq]
        refine ⟨hrec.1, ?_, hrec.2.2.1, hrec.2.2.2.1, ?_⟩
        · rcases hrec.2.1 with h | h
          · exact Or.inl h
          · exact Or.inr h
        · intro e he
          exact mem_removeEntry v e s.entries (hrec.2.2.2.2 e he)

/-- getOrRender preserves the byte-accounting invariant. -/
theorem getOrRender_preserves_inv (k : PageKey)
    (f : PageKey → Option RenderResult) (s : ManagerState)
    (h : CacheInv s) : CacheInv (getOrRender k f s).2 := by
  obtain ⟨hsum, hbud⟩ := h
  by_cases hval : validKeyB k = false
  · simp only [getOrRender, hval, if_true]
    exact ⟨hsum, hbud⟩
  · have hval' : validKeyB k = true := by
      cases hvb : validKeyB k
      · exact absurd hvb hval
      · rfl
    cases hfind : s.entries.find? (fun e => decide (e.key = k)) with
    | some e =>
      simp only [getOrRender, hval', Bool.true_eq_false, if_false,
        hfind]
      constructor
      · rw [sumBytes_map_preserve]
        · exact hsum
        · intro x
          by_cases hx : x.key = k <;> simp [hx]
      · rcases hbud with hb | hb
        · exact Or.inl hb
        · refine Or.inr ?_
          intro x hx
          rcases List.mem_map.mp hx with ⟨x0, hx0, hfx⟩
          by_cases hk : x0.key = k
          · rw [← hfx]; simp [hk]
          · rw [← hfx]; simp [hk]; exact hb x0 hx0
    | none =>
      cases hf : f k with
      | none =>
        simp only [getOrRender, hval', Bool.true_eq_false, if_false,
          hfind, hf]
        exact ⟨hsum, hbud⟩
      | some r =>
        simp only [getOrRender, hval', Bool.true_eq_false, if_false,
          hfind, hf]
        set sMiss : ManagerState :=
          { s with stats :=
              { s.stats with misses := s.stats.misses + 1 } } with hsMiss
        have hspec := evictForFuel_spec sMiss.entries.length r.byteSize
          sMiss (by exact hsum) (le_refl _)
        set sEv := evictForFuel sMiss.entries.length r.byteSize sMiss
          with hsEv
        constructor
        · show sumBytes (newEntry k r s.clock :: sEv.entries)
            = sEv.stats.totalBytes + r.byteSize
          rw [sumBytes_cons, hspec.1]
          show r.byteSize + sEv.stats.totalBytes
            = sEv.stats.totalBytes + r.byteSize
          omega
        · rcases hspec.2.1 with hb | hb
          · refine Or.inl ?_
            show sEv.stats.totalBytes + r.byteSize ≤ sEv.budget
            rw [hspec.2.2.1]
            exact hb
          · refine Or.inr ?_
            intro x hx
            rcases List.mem_cons.mp hx with hx | hx
            · rw [hx]; rfl
            · exact hb x hx

/-- invalidate preserves the byte-accounting invariant. -/
theorem invalidate_preserves_inv (docId : String) (ct : CacheType)
    (s : ManagerState) (h : CacheInv s) :
    CacheInv (invalidate docId ct s) := by
  obtain ⟨hsum, hbud⟩ := h
  have hsplit := sumBytes_filter_split
    (fun e => matchesInvalidate docId ct e.key) s.entries
  constructor
  · show sumBytes (s.entries.filter
        (fun e => !matchesInvalidate docId ct e.key))
      = s.stats.totalBytes
        - sumBytes (s.entries.filter
            (fun e => matchesInvalidate docId ct e.key))
    omega
  · rcases hbud with hb | hb
    · refine Or.inl ?_
      show s.stats.totalBytes
          - sumBytes (s.entries.filter
              (fun e => matchesInvalidate docId ct e.key))
        ≤ s.budget
      omega
    · refine Or.inr ?_
      intro e he
      exact hb e (List.mem_filter.mp he).1

/-- The optimizeMemory pass preserves the byte-accounting
invariant. -/
theorem optimizeLoop_preserves_inv (df : Option String) (fuel : Nat) :
    ∀ s : ManagerState, CacheInv s →
      CacheInv (optimizeLoop df fuel s) := by
  induction fuel with
  | zero => intro s h; exact h
  | succ n ih =>
    intro s h
    obtain ⟨hsum, hbud⟩ := h
    by_cases hw : s.stats.totalBytes ≤ s.lowWaterMark
    · have heq : optimizeLoop df (n + 1) s = s := by
        simp [optimizeLoop, hw]
      rw [heq]
      exact ⟨hsum, hbud⟩
    · cases hpv : pickVictimFor df s.entries with
      | none =>
        have heq : optimizeLoop df (n + 1) s = s := by
          simp [optimizeLoop, hw, hpv]
        rw [heq]
        exact ⟨hsum, hbud⟩
      | some v =>
        have heq : optimizeLoop df (n + 1) s
            = optimizeLoop df n (evictVictim v s) := by
          simp [optimizeLoop, hw, hpv]
        rw [heq]
        have hvmem := (pickVictimFor_mem df s.entries v hpv).1
        refine ih (evictVictim v s) ⟨?_, ?_⟩
        · show sumBytes (removeEntry v s.entries)
            = s.stats.totalBytes - v.byteSize
          rw [sumBytes_removeEntry v s.entries hvmem, hsum]
        · rcases hbud with hb | hb
          · refine Or.inl ?_
            show s.stats.totalBytes - v.byteSize ≤ s.budget
            omega
          · exact absurd hpv (by
              rw [pickVictimFor_none_of_pinned df s.entries hb]
              intro hc
              cases hc)

/-- preload preserves the byte-accounting invariant. -/
theorem preloadGo_preserves_inv (docId : String)
    (renderFn : PageKey → Option RenderResult) (ps : List Int) :
    ∀ s : ManagerState, CacheInv s →
      CacheInv (preloadGo docId renderFn ps s).2 := by
  induction ps with
  | nil => intro s h; exact h
  | cons p rest ih =>
    intro s h
    have hstep := getOrRender_preserves_inv (preloadKey docId p)
      renderFn s h
    have hrest := ih (getOrRender (preloadKey docId p) renderFn s).2
      hstep
    rw [preloadGo]
    cases hres : (getOrRender (preloadKey docId p) renderFn s).1 with
    | ok e => simp only [hres]; exact hrest
    | error err => simp only [hres]; exact hrest

/-- C3: every public cache operation preserves the invariant — the
live byteSizes sum exactly to CacheStats.totalBytes, and totalBytes
stays within the configured budget unless every live entry is
pinned. -/
theorem c3_invariant_preserved :
    ∀ (op : CacheOp) (s : ManagerState),
      CacheInv s → CacheInv (applyOp op s) := by
  intro op s h
  cases op with
  | renderOp k f => exact getOrRender_preserves_inv k f s h
  | preloadOp d a b f =>
    exact preloadGo_preserves_inv d f (pageRange a b) s h
  | invalidateOp d ct => exact invalidate_preserves_inv d ct s h
  | optimizeOp df => exact optimizeLoop_preserves_inv df _ s h
  | clearOp => exact ⟨rfl, Or.inl (Nat.zero_le _)⟩
  | metricsOp => exact h
  | qualityOp d q => exact h

/-- C3 witness: the invariant holds on the concrete empty manager and
is preserved by a concrete render operation on it. -/
theorem c3_invariant_preserved_witness :
    CacheInv demoState0 ∧
    CacheInv (applyOp (.renderOp demoKeyA demoRenderFn) demoState0) := by
  have h0 : CacheInv demoState0 := ⟨rfl, Or.inl (by decide)⟩
  exact ⟨h0, c3_invariant_preserved
    (.renderOp demoKeyA demoRenderFn) demoState0 h0⟩

/-- Bytes a render function contributes over a page list: the
byteSize of each successful render, zero for failures. -/
def sumRender (docId : String)
    (renderFn : PageKey → Option RenderResult) (ps : List Int) : Nat :=
  (ps.map (fun p =>
    match renderFn (preloadKey docId p) with
    | some r => r.byteSize
    | none => 0)).sum

/-- sumRender distributes over cons. -/
theorem sumRender_cons (docId : String)
    (renderFn : PageKey → Option RenderResult) (p : Int)
    (ps : List Int) :
    sumRender docId renderFn (p :: ps)
      = (match renderFn (preloadKey docId p) with
         | some r => r.byteSize
         | none => 0) + sumRender docId renderFn ps := by
  simp [sumRender]

/-- A preload key of a nonnegative page is valid. -/
theorem validKeyB_preloadKey (d : String) (p : Int) (h : 0 ≤ p) :
    validKeyB (preloadKey d p) = true := by
  simp [validKeyB, preloadKey, h]

/-- preloadKey is injective in its page number. -/
theorem preloadKey_inj (d : String) (p q : Int)
    (h : preloadKey d p = preloadKey d q) : p = q := by
  have := congrArg PageKey.pageNumber h
  simpa [preloadKey] using this

/-- A key that is not live is not found. -/
theorem find_none_of_not_hasKey (s : ManagerState) (k : PageKey)
    (h : ¬ hasKey s k) :
    s.entries.find? (fun e => decide (e.key = k)) = none := by
  rw [List.find?_eq_none]
  intro e he
  simp only [decide_eq_true_eq]
  intro hk
  exact h ⟨e, he, hk⟩

/-- When the insert fits the budget, the eviction pass does
nothing. -/
theorem evictFor_id (need : Nat) (s : ManagerState)
    (h : s.stats.totalBytes + need ≤ s.budget) :
    evictFor need s = s := by
  unfold evictFor
  cases hl : s.entries.length with
  | zero => rfl
  | succ n => simp [evictForFuel, h]

/-- A fresh miss with a successful render and budget headroom: the
new entry is returned and consed onto the live list, the bytes grow
by exactly the render's size, and the configuration is unchanged. -/
theorem getOrRender_miss_success (k : PageKey)
    (f : PageKey → Option RenderResult) (s : ManagerState)
    (r : RenderResult) (hval : validKeyB k = true)
    (hfind : s.entries.find? (fun e => decide (e.key = k)) = none)
    (hf : f k = some r)
    (hroom : s.stats.totalBytes + r.byteSize ≤ s.budget) :
    (getOrRender k f s).1 = .ok (newEntry k r s.clock) ∧
    (getOrRender k f s).2.entries
        = newEntry k r s.clock :: s.entries ∧
    (getOrRender k f s).2.stats.totalBytes
        = s.stats.totalBytes + r.byteSize ∧
    (getOrRender k f s).2.budget = s.budget := by
  have hid : evictFor r.byteSize
      { s with stats :=
          { s.stats with misses := s.stats.misses + 1 } }
      = { s with stats :=
          { s.stats with misses := s.stats.misses + 1 } } :=
    evictFor_id r.byteSize _ hroom
  refine ⟨?_, ?_, ?_, ?_⟩ <;>
    simp only [getOrRender, hval, Bool.true_eq_false, if_false,
      hfind, hf, evictFor, hid] <;>
    rw [show evictForFuel
        ({ s with stats :=
            { s.stats with misses := s.stats.misses + 1 }
          } : ManagerState).entries.length r.byteSize
        { s with stats :=
            { s.stats with misses := s.stats.misses + 1 } }
        = { s with stats :=
            { s.stats with misses := s.stats.misses + 1 } } from hid]

/-- A fresh miss whose render fails: the error is returned and only
the miss counter changes. -/
theorem getOrRender_miss_fail (k : PageKey)
    (f : PageKey → Option RenderResult) (s : ManagerState)
    (hval : validKeyB k = true)
    (hfind : s.entries.find? (fun e => decide (e.key = k)) = none)
    (hf : f k = none) :
    (getOrRender k f s).1 = .error .renderFailure ∧
    (getOrRender k f s).2.entries = s.entries ∧
    (getOrRender k f s).2.stats.totalBytes = s.stats.totalBytes ∧
    (getOrRender k f s).2.budget = s.budget := by
  refine ⟨?_, ?_, ?_, ?_⟩ <;>
    simp [getOrRender, hval, hfind, hf]

/-- preloadGo on a page whose getOrRender succeeds. -/
theorem preloadGo_cons_ok (docId : String)
    (renderFn : PageKey → Option RenderResult) (p : Int)
    (rest : List Int) (s : ManagerState) (e : CacheEntry)
    (h : (getOrRender (preloadKey docId p) renderFn s).1 = .ok e) :
    preloadGo docId renderFn (p :: rest) s
      = ({ succeeded :=
            (preloadGo docId renderFn rest
              (getOrRender (preloadKey docId p) renderFn s).2).1.succeeded
              + 1,
           failed :=
            (preloadGo docId renderFn rest
              (getOrRender (preloadKey docId p) renderFn s).2).1.failed },
         (preloadGo docId renderFn rest
           (getOrRender (preloadKey docId p) renderFn s).2).2) := by
  rw [preloadGo]
  simp only [h]

/-- preloadGo on a page whose getOrRender fails. -/
theorem preloadGo_cons_err (docId : String)
    (renderFn : PageKey → Option RenderResult) (p : Int)
    (rest : List Int) (s : ManagerState) (err : RenderError)
    (h : (getOrRender (preloadKey docId p) renderFn s).1
        = .error err) :
    preloadGo docId renderFn (p :: rest) s
      = ({ succeeded :=
            (preloadGo docId renderFn rest
              (getOrRender (preloadKey docId p) renderFn s).2).1.succeeded,
           failed :=
            p :: (preloadGo docId renderFn rest
              (getOrRender (preloadKey docId p) renderFn s).2).1.failed },
         (preloadGo docId renderFn rest
           (getOrRender (preloadKey docId p) renderFn s).2).2) := by
  rw [preloadGo]
  simp only [h]

/-- The preload induction: over fresh nonnegative distinct pages with
budget headroom, keys only grow (existing keys survive, only range
keys are added), the byte growth is bounded by the renders, every
page with a successful render ends cached, every page whose render
fails is recorded in the failure list, and successes and failures
account for every page. -/
theorem preloadGo_spec (docId : String)
    (renderFn : PageKey → Option RenderResult) :
    ∀ (ps : List Int) (s : ManagerState),
      ps.Nodup →
      (∀ p ∈ ps, 0 ≤ p) →
      (∀ p ∈ ps, ¬ hasKey s (preloadKey docId p)) →
      s.stats.totalBytes + sumRender docId renderFn ps ≤ s.budget →
      (∀ k', hasKey s k' →
        hasKey (preloadGo docId renderFn ps s).2 k') ∧
      (∀ k', hasKey (preloadGo docId renderFn ps s).2 k' →
        hasKey s k' ∨ ∃ p ∈ ps, k' = preloadKey docId p) ∧
      ((preloadGo docId renderFn ps s).2.stats.totalBytes
        ≤ s.stats.totalBytes + sumRender docId renderFn ps) ∧
      ((preloadGo docId renderFn ps s).2.budget = s.budget) ∧
      (∀ p ∈ ps, ∀ r, renderFn (preloadKey docId p) = some r →
        hasKey (preloadGo docId renderFn ps s).2
          (preloadKey docId p)) ∧
      (∀ p ∈ ps, renderFn (preloadKey docId p) = none →
        p ∈ (preloadGo docId renderFn ps s).1.failed) ∧
      ((preloadGo docId renderFn ps s).1.succeeded
        + (preloadGo docId renderFn ps s).1.failed.length
        = ps.length) := by
  intro ps
  induction ps with
  | nil =>
    intro s hnd hpos hfresh hroom
    refine ⟨fun k' h => h, fun k' h => Or.inl h, ?_, rfl, ?_, ?_, rfl⟩
    · simp [preloadGo, sumRender]
    · intro p hp; cases hp
    · intro p hp; cases hp
  | cons p rest ih =>
    intro s hnd hpos hfresh hroom
    have hp0 : 0 ≤ p := hpos p (List.mem_cons_self _ _)
    have hval := validKeyB_preloadKey docId p hp0
    have hfindn := find_none_of_not_hasKey s (preloadKey docId p)
      (hfresh p (List.mem_cons_self _ _))
    cases hf : renderFn (preloadKey docId p) with
    | some r =>
      have hsr' : sumRender docId renderFn (p :: rest)
          = r.byteSize + sumRender docId renderFn rest := by
        rw [sumRender_cons, hf]
      rw [hsr'] at hroom
      have hroomp : s.stats.totalBytes + r.byteSize ≤ s.budget := by
        omega
      have hstep := getOrRender_miss_success (preloadKey docId p)
        renderFn s r hval hfindn hf hroomp
      have hKey : ∀ k',
          hasKey (getOrRender (preloadKey docId p) renderFn s).2 k'
            ↔ (k' = preloadKey docId p ∨ hasKey s k') := by
        intro k'
        unfold hasKey
        rw [hstep.2.1]
        constructor
        · rintro ⟨e, he, hek⟩
          rcases List.mem_cons.mp he with he | he
          · left; rw [← hek, he]; rfl
          · right; exact ⟨e, he, hek⟩
        · rintro (h | ⟨e, he, hek⟩)
          · exact ⟨newEntry (preloadKey docId p) r s.clock,
              List.mem_cons_self _ _, by rw [h]; rfl⟩
          · exact ⟨e, List.mem_cons.mpr (Or.inr he), hek⟩
      have hfresh' : ∀ q ∈ rest,
          ¬ hasKey (getOrRender (preloadKey docId p) renderFn s).2
              (preloadKey docId q) := by
        intro q hq hkq
        rcases (hKey _).mp hkq with h | h
        · have hqp := preloadKey_inj docId q p h
          rw [hqp] at hq
          exact (List.nodup_cons.mp hnd).1 hq
        · exact hfresh q (List.mem_cons.mpr (Or.inr hq)) h
      have hroom' :
          (getOrRender (preloadKey docId p) renderFn s).2.stats.totalBytes
            + sumRender docId renderFn rest
          ≤ (getOrRender (preloadKey docId p) renderFn s).2.budget := by
        rw [hstep.2.2.1, hstep.2.2.2]
        omega
      have hrec := ih
        (getOrRender (preloadKey docId p) renderFn s).2
        (List.nodup_cons.mp hnd).2
        (fun q hq => hpos q (List.mem_cons.mpr (Or.inr hq)))
        hfresh' hroom'
      rw [preloadGo_cons_ok docId renderFn p rest s _ hstep.1]
      refine ⟨?_, ?_, ?_, ?_, ?_, ?_, ?_⟩
      · intro k' hk
        exact hrec.1 k' ((hKey k').mpr (Or.inr hk))
      · intro k' hk
        rcases hrec.2.1 k' hk with h | ⟨q, hq, hkq⟩
        · rcases (hKey k').mp h with h | h
          · exact Or.inr ⟨p, List.mem_cons_self _ _, h⟩
          · exact Or.inl h
        · exact Or.inr ⟨q, List.mem_cons.mpr (Or.inr hq), hkq⟩
      · have hb := hrec.2.2.1
        rw [hstep.2.2.1] at hb
        show (preloadGo docId renderFn rest
            (getOrRender (preloadKey docId p) renderFn s).2).2.stats.totalBytes
          ≤ s.stats.totalBytes + sumRender docId renderFn (p :: rest)
        rw [hsr']
        omega
      · rw [hrec.2.2.2.1, hstep.2.2.2]
      · intro q hq r' hr'
        rcases List.mem_cons.mp hq with hq | hq
        · rw [hq]
          exact hrec.1 (preloadKey docId p)
            ((hKey _).mpr (Or.inl rfl))
        · exact hrec.2.2.2.2.1 q hq r' hr'
      · intro q hq hqn
        rcases List.mem_cons.mp hq with hq | hq
        · rw [hq] at hqn
          rw [hqn] at hf
          cases hf
        · exact hrec.2.2.2.2.2.1 q hq hqn
      · have := hrec.2.2.2.2.2.2
        simp only [List.length_cons]
        omega
    | none =>
      have hsr' : sumRender docId renderFn (p :: rest)
          = sumRender docId renderFn rest := by
        rw [sumRender_cons, hf]
        simp
      rw [hsr'] at hroom
      have hstep := getOrRender_miss_fail (preloadKey docId p)
        renderFn s hval hfindn hf
      have hKey : ∀ k',
          hasKey (getOrRender (preloadKey docId p) renderFn s).2 k'
            ↔ hasKey s k' := by
        intro k'
        unfold hasKey
        rw [hstep.2.1]
      have hfresh' : ∀ q ∈ rest,
          ¬ hasKey (getOrRender (preloadKey docId p) renderFn s).2
              (preloadKey docId q) := by
        intro q hq hkq
        exact hfresh q (List.mem_cons.mpr (Or.inr hq))
          ((hKey _).mp hkq)
      have hroom' :
          (getOrRender (preloadKey docId p) renderFn s).2.stats.totalBytes
            + sumRender docId renderFn rest
          ≤ (getOrRender (preloadKey docId p) renderFn s).2.budget := by
        rw [hstep.2.2.1, hstep.2.2.2]
        omega
      have hrec := ih
        (getOrRender (preloadKey docId p) renderFn s).2
        (List.nodup_cons.mp hnd).2
        (fun q hq => hpos q (List.mem_cons.mpr (Or.inr hq)))
        hfresh' hroom'
      rw [preloadGo_cons_err docId renderFn p rest s _ hstep.1]
      refine ⟨?_, ?_, ?_, ?_, ?_, ?_, ?_⟩
      · intro k' hk
        exact hrec.1 k' ((hKey k').mpr hk)
      · intro k' hk
        rcases hrec.2.1 k' hk with h | ⟨q, hq, hkq⟩
        · exact Or.inl ((hKey k').mp h)
        · exact Or.inr ⟨q, List.mem_cons.mpr (Or.inr hq), hkq⟩
      · have hb := hrec.2.2.1
        rw [hstep.2.2.1] at hb
        show (preloadGo docId renderFn rest
            (getOrRender (preloadKey docId p) renderFn s).2).2.stats.totalBytes
          ≤ s.stats.totalBytes + sumRender docId renderFn (p :: rest)
        rw [hsr']
        omega
      · rw [hrec.2.2.2.1, hstep.2.2.2]
      · intro q hq r' hr'
        rcases List.mem_cons.mp hq with hq | hq
        · rw [hq] at hr'
          rw [hr'] at hf
          cases hf
        · exact hrec.2.2.2.2.1 q hq r' hr'
      · intro q hq hqn
        rcases List.mem_cons.mp hq with hq | hq
        · rw [hq]
          exact List.mem_cons_self _ _
        · exact List.mem_cons.mpr
            (Or.inr (hrec.2.2.2.2.2.1 q hq hqn))
      · have := hrec.2.2.2.2.2.2
        simp only [List.length_cons]
        omega

/-- The preload range has no duplicate pages. -/
theorem pageRange_nodup (a b : Int) : (pageRange a b).Nodup := by
  unfold pageRange
  refine List.Nodup.map ?_ (List.nodup_range _)
  intro i j hij
  have h2 : a + 1 + Int.ofNat i = a + 1 + Int.ofNat j := hij
  simp only [Int.ofNat_eq_natCast] at h2
  omega

/-- Pages of the preload range of a nonnegative start are
nonnegative. -/
theorem pageRange_pos (a b : Int) (ha : 0 ≤ a) :
    ∀ p ∈ pageRange a b, 0 ≤ p := by
  intro p hp
  unfold pageRange at hp
  rcases List.mem_map.mp hp with ⟨i, hi, hpi⟩
  have h2 : a + 1 + Int.ofNat i = p := hpi
  simp only [Int.ofNat_eq_natCast] at h2
  omega

/-- C6: for a preload over the (startPage, endPage] range of fresh
pages within budget, a render failure for one page is recorded in the
failure list and is not raised (preload still returns a result
accounting for every page), it does not abort the remaining pages —
every page of the range whose render succeeds is cached at the end —
and successes plus failures add up to the whole range (partial
success). -/
theorem c6_preload_partial_success :
    ∀ (docId : String) (a b : Int)
      (renderFn : PageKey → Option RenderResult) (s : ManagerState),
      0 ≤ a →
      (∀ p ∈ pageRange a b, ¬ hasKey s (preloadKey docId p)) →
      s.stats.totalBytes + sumRender docId renderFn (pageRange a b)
          ≤ s.budget →
      (∀ p ∈ pageRange a b, ∀ r,
        renderFn (preloadKey docId p) = some r →
        hasKey (preload docId a b renderFn s).2
          (preloadKey docId p)) ∧
      (∀ p ∈ pageRange a b,
        renderFn (preloadKey docId p) = none →
        p ∈ (preload docId a b renderFn s).1.failed) ∧
      ((preload docId a b renderFn s).1.succeeded
        + (preload docId a b renderFn s).1.failed.length
        = (pageRange a b).length) := by
  intro docId a b renderFn s ha hfresh hroom
  have h := preloadGo_spec docId renderFn (pageRange a b) s
    (pageRange_nodup a b) (pageRange_pos a b ha) hfresh hroom
  exact ⟨h.2.2.2.2.1, h.2.2.2.2.2.1, h.2.2.2.2.2.2⟩

/-- The scenario renderer of the preload spec: page 3 fails, every
other page renders as a 10-byte result. -/
def demoPreloadFn : PageKey → Option RenderResult :=
  fun k =>
    if k.pageNumber = 3 then none
    else some { payload := [], byteSize := 10, renderTimeMs := 5 }

/-- C6 witness: preload(doc, 1, 5) with page 3 failing — page 4 ends
cached, page 3 is recorded as failed, and the call accounts for all
four pages of (1, 5]. -/
theorem c6_preload_partial_success_witness :
    (0 : Int) ≤ 1 ∧
    hasKey (preload "doc" 1 5 demoPreloadFn demoState0).2
      (preloadKey "doc" 4) ∧
    (3 : Int) ∈ (preload "doc" 1 5 demoPreloadFn demoState0).1.failed ∧
    (preload "doc" 1 5 demoPreloadFn demoState0).1.succeeded
      + (preload "doc" 1 5 demoPreloadFn demoState0).1.failed.length
      = (pageRange 1 5).length := by
  have h := c6_preload_partial_success "doc" 1 5 demoPreloadFn
    demoState0 (by decide) (by decide) (by decide)
  refine ⟨by decide, ?_, ?_, h.2.2⟩
  · exact h.1 4 (by decide)
      { payload := [], byteSize := 10, renderTimeMs := 5 } (by decide)
  · exact h.2.1 3 (by decide) (by decide)
